import Mathlib

/-!
Shallow embedding of the `vu/physics` rigid-body pipeline
(`physics.go`): the simulation driver `Step`, its broadphase /
narrowphase stages, the overlap table of contact pairs, and the
auxiliary queries `Collide` and `Cast`.

Floating-point scalars are modelled as rationals.  Code that the
repository relies on but whose source is not available (body
integration helpers, AABB construction, the per-shape collision
algorithms, the solver, manifold bookkeeping) is modelled from the
specification; each such definition carries a doc comment starting
with `Modelled from the spec:`.
-/

namespace VuPhysics

/-- A triple of rationals standing in for a float64 3-vector. -/
structure V3 where
  x : ℚ
  y : ℚ
  z : ℚ
deriving DecidableEq

/-- The zero vector. -/
def V3.zero : V3 := ⟨0, 0, 0⟩

/-- Componentwise vector addition. -/
def V3.add (a b : V3) : V3 := ⟨a.x + b.x, a.y + b.y, a.z + b.z⟩

/-- Componentwise vector subtraction. -/
def V3.sub (a b : V3) : V3 := ⟨a.x - b.x, a.y - b.y, a.z - b.z⟩

/-- Scalar multiple of a vector. -/
def V3.smul (c : ℚ) (a : V3) : V3 := ⟨c * a.x, c * a.y, c * a.z⟩

/-- Squared euclidean length. -/
def V3.len2 (a : V3) : ℚ := a.x * a.x + a.y * a.y + a.z * a.z

/-- Modelled from the spec: a body transform holds a world location and
an orientation; the orientation is abstracted to a 3-vector since no
claim inspects rotation algebra. -/
structure Transform where
  loc : V3
  rot : V3
deriving DecidableEq

/-- The closed shape set of the physics engine: boxes (half extents)
and spheres (radius).  The spec fixes the collidable shape set to
exactly these two. -/
inductive Shape where
  | box (hx hy hz : ℚ)
  | sphere (r : ℚ)
deriving DecidableEq

/-- Shape type tags used to index the collision-algorithm dispatch
table (`shape.Type()` in the source). -/
inductive ShapeType where
  | boxType
  | sphereType
deriving DecidableEq

/-- The type tag of a shape. -/
def Shape.typeOf : Shape → ShapeType
  | Shape.box _ _ _ => ShapeType.boxType
  | Shape.sphere _ => ShapeType.sphereType

/-- Modelled from the spec: a rigid body owns a shape, a movable flag
(mass > 0), current and predicted transforms, velocities, accumulated
force/torque, damping coefficients and a derived world inertia tensor
(abstracted to a vector).  The shape is optional so that a body missing
its shape data is representable, as the error-handling spec requires. -/
structure body where
  bid : ℕ
  movable : Bool
  shape : Option Shape
  world : Transform
  guess : Transform
  linVel : V3
  angVel : V3
  forces : V3
  torque : V3
  ldamp : ℚ
  adamp : ℚ
  iitw : V3
deriving DecidableEq

/-- Modelled from the spec: `applyGravity` adds gravity to the
accumulated force as a mass-independent acceleration (mass treated
as 1). -/
def applyGravity (g : ℚ) (b : body) : body :=
  { b with forces := b.forces.add ⟨0, g, 0⟩ }

/-- Modelled from the spec: `integrateVelocities` applies the
accumulated force and torque to the linear and angular velocities over
the timestep. -/
def integrateVelocities (dt : ℚ) (b : body) : body :=
  { b with
    linVel := b.linVel.add (V3.smul dt b.forces)
    angVel := b.angVel.add (V3.smul dt b.torque) }

/-- Modelled from the spec: `applyDamping` scales the velocities down
toward zero by the body's damping coefficients ("velocity *=
damping^dt or equivalent"). -/
def applyDamping (dt : ℚ) (b : body) : body :=
  { b with
    linVel := V3.smul b.ldamp b.linVel
    angVel := V3.smul b.adamp b.angVel }

/-- Modelled from the spec: `updatePredictedTransform` applies the
current velocities to the prediction transform, leaving the
authoritative world transform alone. -/
def updatePredictedTransform (dt : ℚ) (b : body) : body :=
  { b with
    guess :=
      ⟨b.world.loc.add (V3.smul dt b.linVel),
       b.world.rot.add (V3.smul dt b.angVel)⟩ }

/-- Modelled from the spec: `updateWorldTransform` commits the
velocities into the authoritative world transform. -/
def updateWorldTransform (dt : ℚ) (b : body) : body :=
  { b with
    world :=
      ⟨b.world.loc.add (V3.smul dt b.linVel),
       b.world.rot.add (V3.smul dt b.angVel)⟩ }

/-- Modelled from the spec: `updateInertiaTensor` refreshes the derived
world inertia tensor, which depends on the current orientation. -/
def updateInertiaTensor (b : body) : body :=
  { b with iitw := b.world.rot }

/-- Modelled from the spec: `clearForces` on a body zeroes the
accumulated force and torque. -/
def clearForcesBody (b : body) : body :=
  { b with forces := V3.zero, torque := V3.zero }

/-- Modelled from the spec: the order-independent 64-bit contact-pair
identifier derived from the two body ids (`body.pairId`).  The smaller
id occupies the low 32 bits and the larger id the high 32 bits, which
makes the key symmetric and injective on unordered id pairs. -/
def pairKey (i j : ℕ) : ℕ := min i j + max i j * 2 ^ 32

/-- The pair id of two bodies (symmetric in its arguments). -/
def pairId (a b : body) : ℕ := pairKey a.bid b.bid

/-- Axis aligned bounding box, min corner (sx, sy, sz) and max corner
(lx, ly, lz), as in the source's `Abox`. -/
structure Abox where
  sx : ℚ
  sy : ℚ
  sz : ℚ
  lx : ℚ
  ly : ℚ
  lz : ℚ
deriving DecidableEq

/-- Modelled from the spec: two AABBs overlap when their intervals
intersect on all three axes. -/
def Abox.Overlaps (a b : Abox) : Bool :=
  decide (a.sx ≤ b.lx) && decide (b.sx ≤ a.lx) &&
  decide (a.sy ≤ b.ly) && decide (b.sy ≤ a.ly) &&
  decide (a.sz ≤ b.lz) && decide (b.sz ≤ a.lz)

/-- Modelled from the spec: the local-space bounding extent of a shape
(box: half extents; sphere: radius in each axis).  A missing shape has
zero extent. -/
def shapeExtent : Option Shape → V3
  | some (Shape.box hx hy hz) => ⟨hx, hy, hz⟩
  | some (Shape.sphere r) => ⟨r, r, r⟩
  | none => V3.zero

/-- Modelled from the spec: the AABB of a shape placed at a transform,
expanded by a collision margin `m` on every side. -/
def aabbAt (t : Transform) (s : Option Shape) (m : ℚ) : Abox :=
  let e := shapeExtent s
  ⟨t.loc.x - e.x - m, t.loc.y - e.y - m, t.loc.z - e.z - m,
   t.loc.x + e.x + m, t.loc.y + e.y + m, t.loc.z + e.z + m⟩

/-- The body's unexpanded AABB at its current world transform
(`body.worldAabb`). -/
def worldAabb (b : body) : Abox := aabbAt b.world b.shape 0

/-- The body's AABB at its predicted transform, expanded by the
collision margin (`body.predictedAabb`). -/
def predictedAabb (b : body) (m : ℚ) : Abox := aabbAt b.guess b.shape m

/-- Modelled from the spec: one persistent contact point of a
manifold: world position, separation depth, contact normal and the
accumulated warm-start impulse. -/
structure pointOfContact where
  point : V3
  depth : ℚ
  normal : V3
  impulse : ℚ
deriving DecidableEq

/-- The empty scratch manifold (`newManifold`). -/
def newManifold : List pointOfContact := []

/-- A contact pair: the two bodies, the per-pass validity flag and the
persistent manifold (`contactPair` in the source). -/
structure contactPair where
  bodyA : body
  bodyB : body
  valid : Bool
  manifold : List pointOfContact
deriving DecidableEq

/-- A fresh contact pair for two bodies (`newContactPair`). -/
def newContactPair (a b : body) : contactPair :=
  { bodyA := a, bodyB := b, valid := false, manifold := [] }

/-- Modelled from the spec: `refreshContacts` drops persistent contact
points that have separated beyond tolerance when re-examined against
the bodies' current world transforms. -/
def refreshContacts (wA wB : Transform) (mf : List pointOfContact) :
    List pointOfContact :=
  mf.filter fun c => decide (0 ≤ c.depth)

/-- Modelled from the spec: `mergeContacts` merges newly computed
contact points into the persistent manifold, keeping at most four
points so that warm-start impulses carry over. -/
def mergeContacts (old new : List pointOfContact) : List pointOfContact :=
  (new ++ old).take 4

/-- The overlap table: pair id to contact pair.  The Go map is
modelled as an association list with unique keys. -/
abbrev Table : Type := List (ℕ × contactPair)

/-- Look a pair up by key. -/
def lookupPair (k : ℕ) : Table → Option contactPair
  | [] => none
  | kp :: rest => if kp.1 = k then some kp.2 else lookupPair k rest

/-- Insert (or replace) the entry for key `k`. -/
def insertPair (k : ℕ) (p : contactPair) : Table → Table
  | [] => [(k, p)]
  | kp :: rest => if kp.1 = k then (k, p) :: rest else kp :: insertPair k p rest

/-- Delete the entry for key `k` (`delete(pairs, pairId)`). -/
def erasePair (k : ℕ) (ps : Table) : Table :=
  ps.filter fun kp => decide (kp.1 ≠ k)

/-- Set the stored pair's validity flag at key `k`
(`pair.valid = true` through the map's pointer). -/
def setValidPair (k : ℕ) (ps : Table) : Table :=
  ps.map fun kp => if kp.1 = k then (kp.1, { kp.2 with valid := true }) else kp

/-- Mark every pair invalid at the start of a broadphase pass. -/
def markInvalid (ps : Table) : Table :=
  ps.map fun kp => (kp.1, { kp.2 with valid := false })

/-- Remove every pair never marked valid this pass. -/
def purgeInvalid (ps : Table) : Table :=
  ps.filter fun kp => kp.2.valid

/-! ## Collision algorithms and dispatch.

The per-shape-pair collision functions live in the collider, whose
source is not available; they are modelled from the spec: each takes
the two bodies and a scratch manifold and returns the (possibly
swapped) bodies together with the produced contact points, touching no
other state. -/

/-- The signature of a narrowphase collision algorithm. -/
abbrev AlgoFn : Type :=
  body → body → List pointOfContact → body × body × List pointOfContact

/-- Modelled from the spec: sphere-sphere collision; a contact exists
when the center distance does not exceed the summed radii. -/
def collideSphereSphere : AlgoFn := fun a b scr =>
  match a.shape, b.shape with
  | some (Shape.sphere r1), some (Shape.sphere r2) =>
    let d := b.world.loc.sub a.world.loc
    if d.len2 ≤ (r1 + r2) * (r1 + r2) then
      (a, b,
       [{ point := a.world.loc.add (V3.smul (1/2) d)
          depth := (r1 + r2) * (r1 + r2) - d.len2
          normal := d, impulse := 0 }])
    else (a, b, [])
  | _, _ => (a, b, [])

/-- Modelled from the spec: box-box collision, abstracted to overlap
of the world AABBs producing a single representative contact point. -/
def collideBoxBox : AlgoFn := fun a b scr =>
  if (worldAabb a).Overlaps (worldAabb b) then
    (a, b,
     [{ point := a.world.loc.add (V3.smul (1/2) (b.world.loc.sub a.world.loc))
        depth := 0, normal := b.world.loc.sub a.world.loc, impulse := 0 }])
  else (a, b, [])

/-- Modelled from the spec: sphere-box collision, abstracted to
overlap of the sphere's and box's world AABBs. -/
def collideSphereBox : AlgoFn := fun a b scr =>
  if (worldAabb a).Overlaps (worldAabb b) then
    (a, b,
     [{ point := a.world.loc.add (V3.smul (1/2) (b.world.loc.sub a.world.loc))
        depth := 0, normal := b.world.loc.sub a.world.loc, impulse := 0 }])
  else (a, b, [])

/-- Modelled from the spec: box-sphere collision normalizes the
operand order by treating the sphere as the first operand, so it
returns the two bodies swapped. -/
def collideBoxSphere : AlgoFn := fun a b scr =>
  collideSphereBox b a scr

/-- Modelled from the spec: the closed 2x2 collision-algorithm
dispatch table indexed by the two shape type tags
(`collider.algorithms`). -/
def algorithms : ShapeType → ShapeType → AlgoFn
  | ShapeType.boxType, ShapeType.boxType => collideBoxBox
  | ShapeType.boxType, ShapeType.sphereType => collideBoxSphere
  | ShapeType.sphereType, ShapeType.boxType => collideSphereBox
  | ShapeType.sphereType, ShapeType.sphereType => collideSphereSphere

/-- The type tag the dispatch uses for a body's shape.  A body inside
the regular pipeline always carries a shape; the default tag only
keeps the function total. -/
def shapeTypeD : Option Shape → ShapeType
  | some s => s.typeOf
  | none => ShapeType.boxType

/-- The contact points the dispatched algorithm produces for a pair of
bodies, starting from an empty scratch manifold. -/
def collManifold (a b : body) : List pointOfContact :=
  (algorithms (shapeTypeD a.shape) (shapeTypeD b.shape) a b newManifold).2.2

/-- Modelled from the spec: a ray-intersection algorithm for a target
shape; returns whether a hit occurred and the nearest intersection
point.  A ray whose own shape data is absent yields a vacuous no-hit,
as the error-handling spec requires.  The positive geometry is
abstracted: a ray whose origin lies inside the target's world AABB
hits it there. -/
def rayHitModel (r b : body) : Bool × ℚ × ℚ × ℚ :=
  match r.shape with
  | none => (false, 0, 0, 0)
  | some _ =>
    let ab := worldAabb b
    let o := r.world.loc
    if (decide (ab.sx ≤ o.x) && decide (o.x ≤ ab.lx) &&
        decide (ab.sy ≤ o.y) && decide (o.y ≤ ab.ly) &&
        decide (ab.sz ≤ o.z) && decide (o.z ≤ ab.lz)) then
      (true, o.x, o.y, o.z)
    else (false, 0, 0, 0)

/-- Modelled from the spec: the package-level map from a target shape
type to its ray-cast algorithm (`rayCastAlgorithms`), looked up with
an `ok` check. -/
def rayCastAlgorithms : ShapeType → Option (body → body → Bool × ℚ × ℚ × ℚ)
  | ShapeType.boxType => some rayHitModel
  | ShapeType.sphereType => some rayHitModel

/-! ## The physics instance and the pipeline stages. -/

/-- The observable state of one `physics` instance: its gravity and
its overlap table.  The scratch AABBs and scratch manifold the source
keeps on the instance are write-only temporaries whose contents are
invalidated after each call, so they carry no observable state. -/
structure physicsSt where
  gravity : ℚ
  overlapped : Table
deriving DecidableEq

/-- `newPhysics`: gravity defaults to -10 and the overlap table starts
empty. -/
def newPhysics : physicsSt := { gravity := -10, overlapped := [] }

/-- `SetGravity` updates the instance's own gravity field. -/
def SetGravity (px : physicsSt) (g : ℚ) : physicsSt :=
  { px with gravity := g }

/-- The package-level collision margin's default value
(`var margin float64 = 0.04`). -/
def marginDefault : ℚ := 0.04

/-- One body's prediction pass: the prediction transform is reset to
the world transform, then a movable body gets gravity, velocity
integration, damping and the velocity-based prediction update
(`predictBodyLocations` loop body). -/
def predictBody (g dt : ℚ) (b : body) : body :=
  let b1 := { b with guess := b.world }
  if b1.movable then
    updatePredictedTransform dt
      (applyDamping dt (integrateVelocities dt (applyGravity g b1)))
  else b1

/-- `predictBodyLocations` applies the prediction pass to every body
in the list. -/
def predictBodyLocations (g : ℚ) (bodies : List body) (dt : ℚ) : List body :=
  bodies.map (predictBody g dt)

/-- One body's commit pass: a movable body has its world transform and
inertia tensor updated (`updateBodyLocations` loop body). -/
def updateBody (dt : ℚ) (b : body) : body :=
  if b.movable then updateInertiaTensor (updateWorldTransform dt b) else b

/-- `updateBodyLocations` applies the commit pass to every body in the
list. -/
def updateBodyLocations (bodies : List body) (dt : ℚ) : List body :=
  bodies.map (updateBody dt)

/-- `clearForces` zeroes the accumulated forces of every body in the
list. -/
def clearForcesAll (bodies : List body) : List body :=
  bodies.map clearForcesBody

/-- One broadphase check of an unordered body pair: skipped unless one
body is movable; an existing pair is marked valid and retested with
margin-expanded predicted AABBs (removed immediately on non-overlap);
a new pair is created only when the unexpanded current-position AABBs
overlap. -/
def bpCheck (m : ℚ) (a b : body) (ps : Table) : Table :=
  if a.movable || b.movable then
    match lookupPair (pairId a b) ps with
    | some _ =>
      if (predictedAabb a m).Overlaps (predictedAabb b m) then
        setValidPair (pairId a b) ps
      else erasePair (pairId a b) (setValidPair (pairId a b) ps)
    | none =>
      if (worldAabb a).Overlaps (worldAabb b) then
        insertPair (pairId a b) { newContactPair a b with valid := true } ps
      else ps
  else ps

/-- The inner broadphase loop: body `a` against each later body. -/
def bpRow (m : ℚ) (a : body) : List body → Table → Table
  | [], ps => ps
  | b :: rest, ps => bpRow m a rest (bpCheck m a b ps)

/-- The outer broadphase loop over all unordered pairs of the list. -/
def bpPass (m : ℚ) : List body → Table → Table
  | [], ps => ps
  | a :: rest, ps => bpPass m rest (bpRow m a rest ps)

/-- `broadphase`: mark every pair invalid, test all unordered pairs,
then purge every pair never marked valid this pass. -/
def broadphase (m : ℚ) (bodies : List body) (ps : Table) : Table :=
  purgeInvalid (bpPass m bodies (markInvalid ps))

/-- The colliding-body set built during narrowphase, keyed by body id
(`map[uint32]*body`). -/
abbrev CollMap : Type := List (ℕ × body)

/-- Insert a body into the colliding set under its id, replacing any
previous entry for that id. -/
def insertColl (b : body) : CollMap → CollMap
  | [] => [(b.bid, b)]
  | kb :: rest =>
    if kb.1 = b.bid then (b.bid, b) :: rest else kb :: insertColl b rest

/-- One narrowphase visit of a pair: dispatch the collision algorithm
on the pair's stored bodies, absorb a potential operand swap, and when
contact points exist refresh and merge the persistent manifold.
Returns the updated table entry and, when colliding, the two bodies to
add to the colliding set. -/
def npPair (kp : ℕ × contactPair) : (ℕ × contactPair) × Option (body × body) :=
  let bodyA := kp.2.bodyA
  let bodyB := kp.2.bodyB
  let alg := algorithms (shapeTypeD bodyA.shape) (shapeTypeD bodyB.shape)
  let res := alg bodyA bodyB newManifold
  let p1 := { kp.2 with bodyA := res.1, bodyB := res.2.1 }
  if 0 < res.2.2.length then
    ((kp.1,
      { p1 with
        manifold :=
          mergeContacts (refreshContacts bodyA.world bodyB.world kp.2.manifold)
            res.2.2 }),
     some (bodyA, bodyB))
  else ((kp.1, p1), none)

/-- The narrowphase loop over the overlap table, accumulating the
colliding set. -/
def npGo : Table → CollMap → CollMap × Table
  | [], col => (col, [])
  | kp :: rest, col =>
    let r := npPair kp
    let col1 :=
      match r.2 with
      | some ab => insertColl ab.2 (insertColl ab.1 col)
      | none => col
    let rec2 := npGo rest col1
    (rec2.1, r.1 :: rec2.2)

/-- `narrowphase`: returns the colliding-body set and the updated
overlap table. -/
def narrowphase (ps : Table) : CollMap × Table :=
  npGo ps []

/-- The signature of the solver as the driver invokes it: it may
mutate the bodies (velocities) and the table (warm-start impulses). -/
abbrev SolverFn : Type :=
  List body → CollMap → Table → ℚ → List body × Table

/-- Modelled from the spec: the iterative impulse solver, abstracted
to a velocity correction applied to every body in the colliding set. -/
def solveModel : SolverFn := fun bodies colliding ps dt =>
  (bodies.map fun b =>
    if (colliding.filter fun kb => decide (kb.1 = b.bid)).length > 0 then
      { b with linVel := V3.smul (9/10) b.linVel }
    else b,
   ps)

/-- `Step`, parametrized by the solver: predict tentative motion,
update the overlap table via broadphase, run narrowphase when the
table is non-empty, solve when the colliding set is non-empty, commit
final world transforms, then clear every body's forces. -/
def StepG (sol : SolverFn) (m : ℚ) (px : physicsSt) (bodies : List body)
    (dt : ℚ) : physicsSt × List body :=
  let bodies1 := predictBodyLocations px.gravity bodies dt
  let ov := broadphase m bodies1 px.overlapped
  let stage :=
    if 0 < ov.length then
      let nr := narrowphase ov
      if 0 < nr.1.length then sol bodies1 nr.1 nr.2 dt
      else (bodies1, nr.2)
    else (bodies1, ov)
  let bodies3 := updateBodyLocations stage.1 dt
  ({ px with overlapped := stage.2 }, clearForcesAll bodies3)

/-- `Step` with the modelled solver. -/
def Step (m : ℚ) (px : physicsSt) (bodies : List body) (dt : ℚ) :
    physicsSt × List body :=
  StepG solveModel m px bodies dt

/-- `Collide`: type-asserts both arguments and dereferences their
shapes without any guard (a `none` result models the fault), then
dispatches the pair's collision algorithm on a scratch manifold and
reports whether contact points were produced.  The instance state is
returned unchanged. -/
def CollideS (px : physicsSt) (oa ob : Option body) :
    Option (Bool × physicsSt) :=
  match oa, ob with
  | some a, some b =>
    match a.shape, b.shape with
    | some sa, some sb =>
      let res := algorithms sa.typeOf sb.typeOf a b newManifold
      some (decide (0 < res.2.2.length), px)
    | _, _ => none
  | _, _ => none

/-- `Cast`: guarded lookup of a ray-cast algorithm; a missing ray, a
missing target, a target without shape data or a missing algorithm
entry all yield the vacuous no-hit result. -/
def CastS (oray ob : Option body) : Bool × ℚ × ℚ × ℚ :=
  match oray, ob with
  | some r, some b =>
    match b.shape with
    | some s =>
      match rayCastAlgorithms s.typeOf with
      | some alg => alg r b
      | none => (false, 0, 0, 0)
    | none => (false, 0, 0, 0)
  | _, _ => (false, 0, 0, 0)

/-! ## The package state: the margin is a package-level variable shared
by every physics instance, while gravity lives on each instance. -/

/-- The package-level state: the shared collision margin together with
every live physics instance. -/
structure pkgState where
  margin : ℚ
  instances : List physicsSt
deriving DecidableEq

/-- A fresh package state: the margin starts at its default. -/
def newPkg (insts : List physicsSt) : pkgState :=
  { margin := marginDefault, instances := insts }

/-- Update the gravity of the instance at position `i`. -/
def setGravityAt : List physicsSt → ℕ → ℚ → List physicsSt
  | [], _, _ => []
  | px :: rest, 0, g => SetGravity px g :: rest
  | px :: rest, Nat.succ i, g => px :: setGravityAt rest i g

/-- `SetGravity` invoked on instance `i`: only that instance's gravity
field changes. -/
def SetGravityP (pkg : pkgState) (i : ℕ) (g : ℚ) : pkgState :=
  { pkg with instances := setGravityAt pkg.instances i g }

/-- `SetMargin` invoked on instance `i`: it writes the package-level
margin variable, regardless of which instance it was called on. -/
def SetMarginP (pkg : pkgState) (i : ℕ) (m : ℚ) : pkgState :=
  { pkg with margin := m }

/-- Step instance `j` of the package: its broadphase AABB expansion
uses the package-level margin. -/
def stepInstance (pkg : pkgState) (j : ℕ) (bodies : List body) (dt : ℚ) :
    Option (physicsSt × List body) :=
  (pkg.instances.get? j).map fun px => Step pkg.margin px bodies dt

/-! ## Example bodies used to exercise the definitions. -/

/-- A movable unit sphere at the origin. -/
def bodyEx1 : body :=
  { bid := 1, movable := true, shape := some (Shape.sphere 1)
    world := ⟨⟨0, 0, 0⟩, ⟨0, 0, 0⟩⟩, guess := ⟨⟨0, 0, 0⟩, ⟨0, 0, 0⟩⟩
    linVel := V3.zero, angVel := V3.zero, forces := V3.zero
    torque := V3.zero, ldamp := 1, adamp := 1, iitw := V3.zero }

/-- A movable unit sphere close to the first one. -/
def bodyEx2 : body :=
  { bodyEx1 with bid := 2, world := ⟨⟨1, 0, 0⟩, ⟨0, 0, 0⟩⟩
                 guess := ⟨⟨1, 0, 0⟩, ⟨0, 0, 0⟩⟩ }

/-- An immovable unit box far away from both spheres. -/
def bodyEx3 : body :=
  { bodyEx1 with bid := 3, movable := false
                 shape := some (Shape.box 1 1 1)
                 world := ⟨⟨100, 0, 0⟩, ⟨0, 0, 0⟩⟩
                 guess := ⟨⟨100, 0, 0⟩, ⟨0, 0, 0⟩⟩ }

/-- At least one body of the pair is movable. -/
def mvOK (kp : ℕ × contactPair) : Prop :=
  (kp.2.bodyA.movable || kp.2.bodyB.movable) = true

/-- The contact points the dispatched algorithm produces for a stored
pair. -/
def npManifold (kp : ℕ × contactPair) : List pointOfContact :=
  (algorithms (shapeTypeD kp.2.bodyA.shape) (shapeTypeD kp.2.bodyB.shape)
    kp.2.bodyA kp.2.bodyB newManifold).2.2

/-- A body id is a key of the colliding set. -/
def memKeyC (x : ℕ) (col : CollMap) : Prop :=
  ∃ bb, (x, bb) ∈ col

/-- A well-kept table entry: its key is the pair key of the bids of
the two stored bodies, the bids are in 32-bit range, and a valid entry
was validated against a pair of bodies from the current list. -/
def goodPair (bodies : List body) (kp : ℕ × contactPair) : Prop :=
  kp.1 = pairKey kp.2.bodyA.bid kp.2.bodyB.bid
  ∧ kp.2.bodyA.bid < 2 ^ 32
  ∧ kp.2.bodyB.bid < 2 ^ 32
  ∧ (kp.2.valid = true →
      ∃ a, a ∈ bodies ∧ ∃ b, b ∈ bodies ∧ kp.1 = pairId a b)

/-- The second sphere with its predicted transform far away: its pair
with the first sphere has separated. -/
def bodyEx2far : body :=
  { bodyEx2 with guess := ⟨⟨50, 0, 0⟩, ⟨0, 0, 0⟩⟩ }

/-- A one-pair table holding the sphere pair. -/
def psEx : Table :=
  [(pairId bodyEx1 bodyEx2far,
    { newContactPair bodyEx1 bodyEx2far with valid := true })]

/-! ## Lemmas about the overlap-table operations. -/

/-- Looking up the key just erased yields nothing. -/
theorem lookupPair_erase_self (k : ℕ) (ps : Table) :
    lookupPair k (erasePair k ps) = none := by
  induction ps with
  | nil => rfl
  | cons kp rest ih =>
    by_cases h : kp.1 = k
    · simpa [erasePair, lookupPair, h] using ih
    · simpa [erasePair, lookupPair, h] using ih

/-- Erasing one key leaves lookups of other keys unchanged. -/
theorem lookupPair_erase_ne (k k' : ℕ) (ps : Table) (h : k' ≠ k) :
    lookupPair k' (erasePair k ps) = lookupPair k' ps := by
  induction ps with
  | nil => rfl
  | cons kp rest ih =>
    obtain ⟨k0, p0⟩ := kp
    by_cases h1 : k0 = k
    · subst h1
      have e1 : erasePair k0 ((k0, p0) :: rest) = erasePair k0 rest := by
        simp [erasePair]
      have h2 : ¬ k0 = k' := fun hh => h hh.symm
      rw [e1, ih]
      simp [lookupPair, h2]
    · have e1 : erasePair k ((k0, p0) :: rest) = (k0, p0) :: erasePair k rest := by
        simp [erasePair, h1]
      rw [e1]
      by_cases h2 : k0 = k'
      · simp [lookupPair, h2]
      · simp [lookupPair, h2, ih]

/-- Looking up the key just inserted yields the inserted pair. -/
theorem lookupPair_insert_self (k : ℕ) (p : contactPair) (ps : Table) :
    lookupPair k (insertPair k p ps) = some p := by
  induction ps with
  | nil => simp [insertPair, lookupPair]
  | cons kp rest ih =>
    by_cases h : kp.1 = k
    · simp [insertPair, lookupPair, h]
    · simp [insertPair, lookupPair, h, ih]

/-- Inserting one key leaves lookups of other keys unchanged. -/
theorem lookupPair_insert_ne (k k' : ℕ) (p : contactPair) (ps : Table)
    (h : k' ≠ k) :
    lookupPair k' (insertPair k p ps) = lookupPair k' ps := by
  have h3 : ¬ k = k' := fun hh => h hh.symm
  induction ps with
  | nil => simp [insertPair, lookupPair, h3]
  | cons kp rest ih =>
    obtain ⟨k0, p0⟩ := kp
    by_cases h1 : k0 = k
    · subst h1
      have e1 : insertPair k0 p ((k0, p0) :: rest) = (k0, p) :: rest := by
        simp [insertPair]
      have h2 : ¬ k0 = k' := h3
      rw [e1]
      simp [lookupPair, h2]
    · have e1 : insertPair k p ((k0, p0) :: rest) =
          (k0, p0) :: insertPair k p rest := by
        simp [insertPair, h1]
      rw [e1]
      by_cases h2 : k0 = k'
      · simp [lookupPair, h2]
      · simp [lookupPair, h2, ih]

/-- Validating a key maps its stored pair to the validated pair. -/
theorem lookupPair_setValid_self (k : ℕ) (ps : Table) :
    lookupPair k (setValidPair k ps) =
      (lookupPair k ps).map fun p => { p with valid := true } := by
  induction ps with
  | nil => rfl
  | cons kp rest ih =>
    by_cases h : kp.1 = k
    · simp [setValidPair, lookupPair, h]
    · simp [setValidPair, lookupPair, h] at ih ⊢
      exact ih

/-- Validating one key leaves lookups of other keys unchanged. -/
theorem lookupPair_setValid_ne (k k' : ℕ) (ps : Table) (h : k' ≠ k) :
    lookupPair k' (setValidPair k ps) = lookupPair k' ps := by
  induction ps with
  | nil => rfl
  | cons kp rest ih =>
    obtain ⟨k0, p0⟩ := kp
    by_cases h1 : k0 = k
    · subst h1
      have e1 : setValidPair k0 ((k0, p0) :: rest) =
          (k0, { p0 with valid := true }) :: setValidPair k0 rest := by
        simp [setValidPair]
      have h2 : ¬ k0 = k' := fun hh => h hh.symm
      rw [e1]
      simp [lookupPair, h2, ih]
    · have e1 : setValidPair k ((k0, p0) :: rest) =
          (k0, p0) :: setValidPair k rest := by
        simp [setValidPair, h1]
      rw [e1]
      by_cases h2 : k0 = k'
      · simp [lookupPair, h2]
      · simp [lookupPair, h2, ih]

/-- Marking all pairs invalid preserves which keys are present. -/
theorem lookupPair_markInvalid (k : ℕ) (ps : Table) :
    lookupPair k (markInvalid ps) =
      (lookupPair k ps).map fun p => { p with valid := false } := by
  induction ps with
  | nil => rfl
  | cons kp rest ih =>
    by_cases h : kp.1 = k
    · simp [markInvalid, lookupPair, h]
    · simp [markInvalid, lookupPair, h] at ih ⊢
      exact ih

/-- A key absent from a table stays absent after the validity purge. -/
theorem lookupPair_purge_none (k : ℕ) (ps : Table)
    (h : lookupPair k ps = none) :
    lookupPair k (purgeInvalid ps) = none := by
  induction ps with
  | nil => rfl
  | cons kp rest ih =>
    by_cases h1 : kp.1 = k
    · simp [lookupPair, h1] at h
    · simp [lookupPair, h1] at h
      by_cases h2 : kp.2.valid
      · simpa [purgeInvalid, lookupPair, h1, h2] using ih h
      · simpa [purgeInvalid, lookupPair, h2] using ih h

/-- Membership after an insertion: the new entry or an old one. -/
theorem mem_insertPair (k : ℕ) (p : contactPair) (ps : Table)
    (kp : ℕ × contactPair) (h : kp ∈ insertPair k p ps) :
    kp = (k, p) ∨ kp ∈ ps := by
  induction ps with
  | nil => simpa [insertPair] using h
  | cons kp0 rest ih =>
    by_cases h1 : kp0.1 = k
    · simp [insertPair, h1] at h
      rcases h with h | h
      · exact Or.inl (by simp [h])
      · exact Or.inr (List.mem_cons_of_mem _ h)
    · simp [insertPair, h1] at h
      rcases h with h | h
      · exact Or.inr (by simp [h])
      · rcases ih h with h2 | h2
        · exact Or.inl h2
        · exact Or.inr (List.mem_cons_of_mem _ h2)

/-! ## Lemmas about AABBs and pair keys. -/

/-- AABB overlap is symmetric. -/
theorem Overlaps_comm (a b : Abox) : a.Overlaps b = b.Overlaps a := by
  simp only [Abox.Overlaps]
  by_cases h1 : a.sx ≤ b.lx <;> by_cases h2 : b.sx ≤ a.lx <;>
    by_cases h3 : a.sy ≤ b.ly <;> by_cases h4 : b.sy ≤ a.ly <;>
    by_cases h5 : a.sz ≤ b.lz <;> by_cases h6 : b.sz ≤ a.lz <;>
    simp [h1, h2, h3, h4, h5, h6]

/-- Overlap of margin-expanded AABBs is monotone in the margin: a test
passed with no margin is passed with any non-negative margin. -/
theorem Overlaps_mono_margin (t t' : Transform) (s s' : Option Shape)
    (m : ℚ) (hm : 0 ≤ m)
    (h : (aabbAt t s 0).Overlaps (aabbAt t' s' 0) = true) :
    (aabbAt t s m).Overlaps (aabbAt t' s' m) = true := by
  simp only [Abox.Overlaps, aabbAt, Bool.and_eq_true, decide_eq_true_eq] at h ⊢
  obtain ⟨⟨⟨⟨⟨h1, h2⟩, h3⟩, h4⟩, h5⟩, h6⟩ := h
  refine ⟨⟨⟨⟨⟨?_, ?_⟩, ?_⟩, ?_⟩, ?_⟩, ?_⟩ <;> linarith

/-- The pair key is symmetric in the two body ids. -/
theorem pairKey_comm (i j : ℕ) : pairKey i j = pairKey j i := by
  simp [pairKey, Nat.min_comm, Nat.max_comm]

/-- The pair id is symmetric in the two bodies. -/
theorem pairId_comm (a b : body) : pairId a b = pairId b a := by
  simp [pairId, pairKey_comm]

/-- For ids below 2^32 the pair key identifies the unordered id pair. -/
theorem pairKey_inj (i j i' j' : ℕ) (hi : i < 2 ^ 32) (hj : j < 2 ^ 32)
    (hi' : i' < 2 ^ 32) (hj' : j' < 2 ^ 32)
    (h : pairKey i j = pairKey i' j') :
    (i = i' ∧ j = j') ∨ (i = j' ∧ j = i') := by
  simp only [pairKey] at h
  omega

/-- C2: in broadphase, an unordered pair already present in the overlap
table is retained exactly when the two bodies' margin-expanded
predicted AABBs overlap (it is removed immediately on non-overlap),
while a pair not yet present is created exactly when the unexpanded
current-position world AABBs overlap; and expanding both AABBs by a
non-negative margin only makes the overlap test more tolerant, so new
pairs require tighter overlap than existing pairs tolerate. -/
theorem broadphase_pair_hysteresis (m : ℚ) (a b : body) (ps : Table)
    (hmv : (a.movable || b.movable) = true) :
    (∀ p, lookupPair (pairId a b) ps = some p →
      lookupPair (pairId a b) (bpCheck m a b ps) =
        (if (predictedAabb a m).Overlaps (predictedAabb b m)
         then some { p with valid := true } else none))
  ∧ (lookupPair (pairId a b) ps = none →
      lookupPair (pairId a b) (bpCheck m a b ps) =
        (if (worldAabb a).Overlaps (worldAabb b)
         then some { newContactPair a b with valid := true } else none))
  ∧ (∀ (t t' : Transform) (s s' : Option Shape), 0 ≤ m →
      (aabbAt t s 0).Overlaps (aabbAt t' s' 0) = true →
      (aabbAt t s m).Overlaps (aabbAt t' s' m) = true) := by
  refine ⟨?_, ?_, ?_⟩
  · intro p hp
    have e : bpCheck m a b ps =
        (if (predictedAabb a m).Overlaps (predictedAabb b m)
         then setValidPair (pairId a b) ps
         else erasePair (pairId a b) (setValidPair (pairId a b) ps)) := by
      unfold bpCheck
      rw [if_pos hmv, hp]
    rw [e]
    by_cases ho : (predictedAabb a m).Overlaps (predictedAabb b m) = true
    · rw [if_pos ho, if_pos ho, lookupPair_setValid_self, hp]
      rfl
    · rw [if_neg ho, if_neg ho, lookupPair_erase_self]
  · intro hp
    have e : bpCheck m a b ps =
        (if (worldAabb a).Overlaps (worldAabb b)
         then insertPair (pairId a b)
                { newContactPair a b with valid := true } ps
         else ps) := by
      unfold bpCheck
      rw [if_pos hmv, hp]
    rw [e]
    by_cases ho : (worldAabb a).Overlaps (worldAabb b) = true
    · rw [if_pos ho, if_pos ho, lookupPair_insert_self]
    · rw [if_neg ho, if_neg ho, hp]
  · exact fun t t' s s' hm h => Overlaps_mono_margin t t' s s' m hm h

/-- Witness for C2 at concrete bodies: the new-pair branch inserts the
pair since the world AABBs of the two nearby spheres overlap. -/
theorem broadphase_pair_hysteresis_witness :
    lookupPair (pairId bodyEx1 bodyEx2)
        (bpCheck marginDefault bodyEx1 bodyEx2 []) =
      some { newContactPair bodyEx1 bodyEx2 with valid := true } := by
  have h := (broadphase_pair_hysteresis marginDefault bodyEx1 bodyEx2 []
    (by decide)).2.1 rfl
  rw [h]
  norm_num [worldAabb, aabbAt, Abox.Overlaps, bodyEx1, bodyEx2, shapeExtent]

/-! ## Membership lemmas for the table operations. -/

/-- Membership after erasing is membership before. -/
theorem mem_erasePair (k : ℕ) (ps : Table) (kp : ℕ × contactPair)
    (h : kp ∈ erasePair k ps) : kp ∈ ps :=
  (List.mem_filter.1 h).1

/-- Membership after the validity purge: the pair was present and is
valid. -/
theorem mem_purgeInvalid (ps : Table) (kp : ℕ × contactPair)
    (h : kp ∈ purgeInvalid ps) : kp ∈ ps ∧ kp.2.valid = true :=
  ⟨(List.mem_filter.1 h).1, (List.mem_filter.1 h).2⟩

/-- Membership after validating a key: same key, same bodies and
manifold, the validity flag possibly switched on. -/
theorem mem_setValidPair (k : ℕ) (ps : Table) (kp : ℕ × contactPair)
    (h : kp ∈ setValidPair k ps) :
    ∃ kp' ∈ ps, kp.1 = kp'.1 ∧
      (kp.2 = kp'.2 ∨ (kp.1 = k ∧ kp.2 = { kp'.2 with valid := true })) := by
  obtain ⟨kp', h1, h2⟩ := List.mem_map.1 h
  by_cases hk : kp'.1 = k
  · refine ⟨kp', h1, ?_, Or.inr ⟨?_, ?_⟩⟩ <;> simp [← h2, hk]
  · refine ⟨kp', h1, ?_, Or.inl ?_⟩ <;> simp [← h2, hk]

/-- Membership after marking all pairs invalid: same key, same bodies
and manifold, validity switched off. -/
theorem mem_markInvalid (ps : Table) (kp : ℕ × contactPair)
    (h : kp ∈ markInvalid ps) :
    ∃ kp' ∈ ps, kp.1 = kp'.1 ∧ kp.2 = { kp'.2 with valid := false } := by
  obtain ⟨kp', h1, h2⟩ := List.mem_map.1 h
  exact ⟨kp', h1, by simp [← h2], by simp [← h2]⟩

/-! ## The movable-pair invariant (C7). -/

/-- The movable-pair invariant depends only on the stored bodies. -/
theorem mvOK_of_eq_bodies {kp kp' : ℕ × contactPair}
    (hA : kp.2.bodyA = kp'.2.bodyA) (hB : kp.2.bodyB = kp'.2.bodyB)
    (h : mvOK kp') : mvOK kp := by
  unfold mvOK at h ⊢
  rw [hA, hB]
  exact h

/-- One broadphase check preserves the movable-pair invariant: the
only pair it can add is guarded by the movability test. -/
theorem mvOK_bpCheck (m : ℚ) (a b : body) (ps : Table)
    (h : ∀ kp ∈ ps, mvOK kp) : ∀ kp ∈ bpCheck m a b ps, mvOK kp := by
  intro kp hkp
  unfold bpCheck at hkp
  by_cases hmv : (a.movable || b.movable) = true
  · rw [if_pos hmv] at hkp
    cases hl : lookupPair (pairId a b) ps with
    | some p =>
      rw [hl] at hkp
      by_cases ho : (predictedAabb a m).Overlaps (predictedAabb b m) = true
      · rw [if_pos ho] at hkp
        obtain ⟨kp', h1, h2, h3⟩ := mem_setValidPair _ _ _ hkp
        have hm := h kp' h1
        rcases h3 with h3 | ⟨_, h3⟩ <;>
          exact mvOK_of_eq_bodies (by rw [h3]) (by rw [h3]) hm
      · rw [if_neg ho] at hkp
        obtain ⟨kp', h1, h2, h3⟩ :=
          mem_setValidPair _ _ _ (mem_erasePair _ _ _ hkp)
        have hm := h kp' h1
        rcases h3 with h3 | ⟨_, h3⟩ <;>
          exact mvOK_of_eq_bodies (by rw [h3]) (by rw [h3]) hm
    | none =>
      rw [hl] at hkp
      by_cases ho : (worldAabb a).Overlaps (worldAabb b) = true
      · rw [if_pos ho] at hkp
        rcases mem_insertPair _ _ _ _ hkp with h1 | h1
        · rw [h1]
          exact hmv
        · exact h kp h1
      · rw [if_neg ho] at hkp
        exact h kp hkp
  · rw [if_neg hmv] at hkp
    exact h kp hkp

/-- The inner broadphase loop preserves the movable-pair invariant. -/
theorem mvOK_bpRow (m : ℚ) (a : body) :
    ∀ (bs : List body) (ps : Table), (∀ kp ∈ ps, mvOK kp) →
      ∀ kp ∈ bpRow m a bs ps, mvOK kp
  | [], ps, h => h
  | b :: rest, ps, h =>
    mvOK_bpRow m a rest (bpCheck m a b ps) (mvOK_bpCheck m a b ps h)

/-- The outer broadphase loop preserves the movable-pair invariant. -/
theorem mvOK_bpPass (m : ℚ) :
    ∀ (bs : List body) (ps : Table), (∀ kp ∈ ps, mvOK kp) →
      ∀ kp ∈ bpPass m bs ps, mvOK kp
  | [], ps, h => h
  | a :: rest, ps, h =>
    mvOK_bpPass m rest (bpRow m a rest ps) (mvOK_bpRow m a rest ps h)

/-- C7: broadphase tests only unordered pairs with at least one movable
body — a pair of two immovable bodies is skipped entirely, leaving the
table untouched — and the overlap table only ever contains pairs with
at least one movable body: the invariant is preserved by every
broadphase pass, starting from the empty table of a new physics
instance. -/
theorem broadphase_movable_only (m : ℚ) (bodies : List body) (ps : Table) :
    (∀ a b, a.movable = false → b.movable = false → bpCheck m a b ps = ps)
  ∧ ((∀ kp ∈ ps, mvOK kp) → ∀ kp ∈ broadphase m bodies ps, mvOK kp)
  ∧ newPhysics.overlapped = [] := by
  refine ⟨?_, ?_, rfl⟩
  · intro a b ha hb
    have hc : ¬ ((a.movable || b.movable) = true) := by simp [ha, hb]
    unfold bpCheck
    rw [if_neg hc]
  · intro h kp hkp
    have h0 : ∀ kp ∈ markInvalid ps, mvOK kp := by
      intro kp hkp
      obtain ⟨kp', h1, h2, h3⟩ := mem_markInvalid _ _ hkp
      have := h kp' h1
      simpa [mvOK, h3] using this
    exact mvOK_bpPass m bodies (markInvalid ps) h0 kp
      (mem_purgeInvalid _ _ hkp).1

/-- Witness for C7: two immovable boxes are never paired, and the
movable invariant holds after a concrete broadphase pass. -/
theorem broadphase_movable_only_witness :
    bpCheck marginDefault bodyEx3 bodyEx3 [] = []
  ∧ (∀ kp ∈ broadphase marginDefault [bodyEx1, bodyEx2] [], mvOK kp) := by
  constructor
  · exact (broadphase_movable_only marginDefault [] []).1 bodyEx3 bodyEx3
      (by decide) (by decide)
  · exact fun kp hkp =>
      (broadphase_movable_only marginDefault [bodyEx1, bodyEx2] []).2.1
        (by intro kp h; cases h) kp hkp

/-- C8: an immovable body is untouched by both integration passes: the
prediction pass only resets its prediction transform to its world
transform — applying no gravity, no velocity integration, no damping
and no velocity-based prediction update — the commit pass leaves it
entirely unchanged (in particular its world transform and inertia
tensor), and iterating the two passes any number of times still leaves
every field except the prediction transform at its original value. -/
theorem immovable_untouched (g dt : ℚ) (b : body) (h : b.movable = false) :
    predictBody g dt b = { b with guess := b.world }
  ∧ updateBody dt b = b
  ∧ (∀ n : ℕ, (fun c => updateBody dt (predictBody g dt c))^[n + 1] b
      = { b with guess := b.world })
  ∧ (∀ bodies : List body, b ∈ bodies →
      { b with guess := b.world } ∈ predictBodyLocations g bodies dt
      ∧ updateBody dt b ∈ updateBodyLocations bodies dt) := by
  have hp : predictBody g dt b = { b with guess := b.world } := by
    simp [predictBody, h]
  have hu : updateBody dt b = b := by
    simp [updateBody, h]
  have hp2 : predictBody g dt { b with guess := b.world } =
      { b with guess := b.world } := by
    simp [predictBody, h]
  have hu2 : updateBody dt { b with guess := b.world } =
      { b with guess := b.world } := by
    simp [updateBody, h]
  refine ⟨hp, hu, ?_, ?_⟩
  · intro n
    induction n with
    | zero =>
      simp only [zero_add, Function.iterate_one]
      rw [hp, hu2]
    | succ n ih =>
      rw [Function.iterate_succ_apply', ih, hp2, hu2]
  · intro bodies hb
    constructor
    · rw [← hp]
      exact List.mem_map_of_mem _ hb
    · exact List.mem_map_of_mem _ hb

/-- Witness for C8 at the concrete immovable box. -/
theorem immovable_untouched_witness :
    predictBody (-10) (1/60) bodyEx3 = { bodyEx3 with guess := bodyEx3.world }
  ∧ updateBody (1/60) bodyEx3 = bodyEx3
  ∧ (fun c => updateBody (1/60) (predictBody (-10) (1/60) c))^[3] bodyEx3
      = { bodyEx3 with guess := bodyEx3.world } := by
  have h := immovable_untouched (-10) (1/60) bodyEx3 rfl
  exact ⟨h.1, h.2.1, h.2.2.1 2⟩

/-! ## The package state lemmas (C9). -/

/-- Updating the gravity of instance `i` leaves other positions
unchanged. -/
theorem setGravityAt_get_ne (g : ℚ) :
    ∀ (l : List physicsSt) (i j : ℕ), j ≠ i →
      (setGravityAt l i g).get? j = l.get? j
  | [], _, _, _ => rfl
  | px :: rest, 0, 0, h => absurd rfl h
  | px :: rest, 0, Nat.succ j, _ => rfl
  | px :: rest, Nat.succ i, 0, _ => rfl
  | px :: rest, Nat.succ i, Nat.succ j, h =>
    setGravityAt_get_ne g rest i j (fun hh => h (by rw [hh]))

/-- Updating the gravity of instance `i` updates exactly its gravity
field. -/
theorem setGravityAt_get_self (g : ℚ) :
    ∀ (l : List physicsSt) (i : ℕ) (px : physicsSt), l.get? i = some px →
      (setGravityAt l i g).get? i = some { px with gravity := g }
  | [], i, px, h => by cases h
  | px0 :: rest, 0, px, h => by
    simp [List.get?] at h
    simp [setGravityAt, List.get?, h, SetGravity]
  | px0 :: rest, Nat.succ i, px, h =>
    setGravityAt_get_self g rest i px h

/-- C9: `SetGravity` changes only the receiving instance's gravity
field (default -10), while `SetMargin` writes the package-level margin
(default 0.04) shared by all instances: after setting the margin
through any instance, stepping any other instance performs its
broadphase AABB expansion with the new margin. -/
theorem margin_global_gravity_local (pkg : pkgState) (i j : ℕ) (g m : ℚ)
    (insts : List physicsSt) :
    newPhysics.gravity = -10
  ∧ (newPkg insts).margin = 0.04
  ∧ (SetGravityP pkg i g).margin = pkg.margin
  ∧ (j ≠ i → (SetGravityP pkg i g).instances.get? j = pkg.instances.get? j)
  ∧ (∀ px, pkg.instances.get? i = some px →
      (SetGravityP pkg i g).instances.get? i = some { px with gravity := g })
  ∧ (SetMarginP pkg i m).instances = pkg.instances
  ∧ (SetMarginP pkg i m).margin = m
  ∧ (∀ (bodies : List body) (dt : ℚ),
      stepInstance (SetMarginP pkg i m) j bodies dt =
        (pkg.instances.get? j).map fun px => Step m px bodies dt) := by
  refine ⟨rfl, rfl, rfl, ?_, ?_, rfl, rfl, ?_⟩
  · intro h
    exact setGravityAt_get_ne g pkg.instances i j h
  · intro px h
    exact setGravityAt_get_self g pkg.instances i px h
  · intro bodies dt
    rfl

/-- Witness for C9 at a package holding two instances. -/
theorem margin_global_gravity_local_witness :
    (SetGravityP (newPkg [newPhysics, newPhysics]) 0 (-3)).margin
      = (newPkg [newPhysics, newPhysics]).margin
  ∧ (SetGravityP (newPkg [newPhysics, newPhysics]) 0 (-3)).instances.get? 1
      = (newPkg [newPhysics, newPhysics]).instances.get? 1
  ∧ (SetGravityP (newPkg [newPhysics, newPhysics]) 0 (-3)).instances.get? 0
      = some { newPhysics with gravity := -3 }
  ∧ (SetMarginP (newPkg [newPhysics, newPhysics]) 0 (1/2)).margin = 1/2
  ∧ stepInstance (SetMarginP (newPkg [newPhysics, newPhysics]) 0 (1/2)) 1 [] 1
      = ((newPkg [newPhysics, newPhysics]).instances.get? 1).map
          fun px => Step (1/2) px [] 1 := by
  have h := margin_global_gravity_local (newPkg [newPhysics, newPhysics])
    0 1 (-3) (1/2) [newPhysics, newPhysics]
  exact ⟨h.2.2.1, h.2.2.2.1 (by decide), h.2.2.2.2.1 newPhysics rfl,
    h.2.2.2.2.2.2.1, h.2.2.2.2.2.2.2 [] 1⟩

/-- C5: for bodies that both carry shapes, `Collide` reports exactly
whether the dispatched narrowphase algorithm produces at least one
contact point on a scratch manifold, and it leaves the physics
instance's state (gravity and overlap table) unchanged no matter how
many times it is called. -/
theorem collide_matches_narrowphase (px : physicsSt) (a b : body)
    (sa sb : Shape) (ha : a.shape = some sa) (hb : b.shape = some sb) :
    CollideS px (some a) (some b) =
      some (decide (0 < (collManifold a b).length), px)
  ∧ (decide (0 < (collManifold a b).length) = true ↔ collManifold a b ≠ [])
  ∧ (∀ n : ℕ,
      (fun s => ((CollideS s (some a) (some b)).map Prod.snd).getD s)^[n] px
        = px) := by
  have h1 : CollideS px (some a) (some b) =
      some (decide (0 < (collManifold a b).length), px) := by
    simp [CollideS, ha, hb, collManifold, shapeTypeD]
  refine ⟨h1, ?_, ?_⟩
  · simp [List.length_pos]
  · intro n
    induction n with
    | zero => rfl
    | succ n ih =>
      rw [Function.iterate_succ_apply', ih]
      have h2 : CollideS px (some a) (some b) =
          some (decide (0 < (collManifold a b).length), px) := h1
      simp [h2]

/-- Witness for C5 at two concrete spheres with shapes. -/
theorem collide_matches_narrowphase_witness :
    CollideS newPhysics (some bodyEx1) (some bodyEx2) =
      some (decide (0 < (collManifold bodyEx1 bodyEx2).length), newPhysics) :=
  (collide_matches_narrowphase newPhysics bodyEx1 bodyEx2
    (Shape.sphere 1) (Shape.sphere 1) rfl rfl).1

/-- C6: `Cast` returns the vacuous no-hit result (hit = false and zero
coordinates) instead of faulting whenever the ray is absent, the
target body is absent, the target has no shape data, or the ray has no
shape data. -/
theorem cast_vacuous_on_missing (oray ob : Option body)
    (h : oray = none ∨ ob = none
       ∨ (∃ b, ob = some b ∧ b.shape = none)
       ∨ (∃ r, oray = some r ∧ r.shape = none)) :
    CastS oray ob = (false, 0, 0, 0) := by
  rcases h with h | h | ⟨b, hb, hbs⟩ | ⟨r, hr, hrs⟩
  · subst h
    cases ob <;> rfl
  · subst h
    cases oray <;> rfl
  · subst hb
    cases oray with
    | none => rfl
    | some r => simp [CastS, hbs]
  · subst hr
    cases ob with
    | none => rfl
    | some b =>
      cases hbs : b.shape with
      | none => simp [CastS, hbs]
      | some s =>
        cases s <;>
          simp [CastS, hbs, rayCastAlgorithms, Shape.typeOf, rayHitModel, hrs]

/-- Witness for C6: casting with an absent ray yields the no-hit
result. -/
theorem cast_vacuous_on_missing_witness :
    CastS none (some bodyEx1) = (false, 0, 0, 0) :=
  cast_vacuous_on_missing none (some bodyEx1) (Or.inl rfl)

/-- C10: `Collide` performs no guard for absent geometry: its result
is defined exactly when both arguments are present and both carry
shape data, and outside that precondition the call faults (modelled by
`none`) rather than returning a vacuous `false`. -/
theorem collide_requires_geometry (px : physicsSt) (oa ob : Option body) :
    ((CollideS px oa ob).isSome = true ↔
      ∃ a b sa sb, oa = some a ∧ ob = some b
        ∧ a.shape = some sa ∧ b.shape = some sb)
  ∧ ((¬ ∃ a b sa sb, oa = some a ∧ ob = some b
        ∧ a.shape = some sa ∧ b.shape = some sb) →
      CollideS px oa ob = none) := by
  constructor
  · cases oa with
    | none => simp [CollideS]
    | some a =>
      cases ob with
      | none => simp [CollideS]
      | some b =>
        cases ha : a.shape with
        | none => simp [CollideS, ha]
        | some sa =>
          cases hb : b.shape with
          | none => simp [CollideS, ha, hb]
          | some sb =>
            simp only [CollideS, ha, hb, Option.isSome_some, true_iff]
            exact ⟨a, b, sa, sb, rfl, rfl, ha, hb⟩
  · intro hn
    cases hc : CollideS px oa ob with
    | none => rfl
    | some v =>
      exfalso
      apply hn
      cases oa with
      | none => simp [CollideS] at hc
      | some a =>
        cases ob with
        | none => simp [CollideS] at hc
        | some b =>
          cases ha : a.shape with
          | none => simp [CollideS, ha] at hc
          | some sa =>
            cases hb : b.shape with
            | none => simp [CollideS, ha, hb] at hc
            | some sb => exact ⟨a, b, sa, sb, rfl, rfl, ha, hb⟩

/-- Witness for C10: a missing first argument makes `Collide` fault
rather than answer `false`. -/
theorem collide_requires_geometry_witness :
    CollideS newPhysics none (some bodyEx1) = none :=
  (collide_requires_geometry newPhysics none (some bodyEx1)).2
    (by rintro ⟨a, b, sa, sb, h, _⟩; cases h)

/-! ## Narrowphase lemmas (C4). -/

/-- A narrowphase visit never changes the pair's key. -/
theorem npPair_key (kp : ℕ × contactPair) : (npPair kp).1.1 = kp.1 := by
  simp only [npPair]
  split <;> rfl

/-- The bodies a narrowphase visit submits to the colliding set:
exactly the pair's two stored bodies, and only when the algorithm
produced contact points. -/
theorem npPair_addQ (kp : ℕ × contactPair) :
    (npPair kp).2 =
      (if 0 < (npManifold kp).length
       then some (kp.2.bodyA, kp.2.bodyB) else none) := by
  simp only [npPair, npManifold]
  split <;> rfl

/-- The manifold after a narrowphase visit: refreshed and merged when
contact points exist, untouched otherwise. -/
theorem npPair_manifold (kp : ℕ × contactPair) :
    (npPair kp).1.2.manifold =
      (if 0 < (npManifold kp).length
       then mergeContacts
              (refreshContacts kp.2.bodyA.world kp.2.bodyB.world
                kp.2.manifold) (npManifold kp)
       else kp.2.manifold) := by
  simp only [npPair, npManifold]
  split <;> rfl

/-- The narrowphase loop maps every table entry through its visit. -/
theorem npGo_snd : ∀ (ps : Table) (col : CollMap),
    (npGo ps col).2 = ps.map fun kp => (npPair kp).1
  | [], _ => rfl
  | kp :: rest, col => by
    simp only [npGo, List.map_cons]
    rw [npGo_snd rest]

/-- Keys of the colliding set after inserting a body. -/
theorem memKeyC_insertColl (x : ℕ) (b : body) :
    ∀ col : CollMap, memKeyC x (insertColl b col) ↔ x = b.bid ∨ memKeyC x col
  | [] => by
    constructor
    · rintro ⟨bb, h⟩
      simp [insertColl] at h
      exact Or.inl h.1
    · rintro (h | ⟨bb, h⟩)
      · exact ⟨b, by simp [insertColl, h]⟩
      · cases h
  | kb :: rest => by
    by_cases hk : kb.1 = b.bid
    · constructor
      · rintro ⟨bb, h⟩
        simp only [insertColl, if_pos hk] at h
        rcases List.mem_cons.1 h with h | h
        · exact Or.inl (by cases h; rfl)
        · exact Or.inr ⟨bb, List.mem_cons_of_mem _ h⟩
      · rintro (h | ⟨bb, h⟩)
        · exact ⟨b, by simp [insertColl, if_pos hk, h]⟩
        · rcases List.mem_cons.1 h with h2 | h2
          · have hx : x = b.bid := by
              have h5 := congrArg Prod.fst h2
              simp at h5
              omega
            refine ⟨b, ?_⟩
            simp only [insertColl, if_pos hk]
            rw [hx]
            exact List.mem_cons_self _ _
          · exact ⟨bb, by simp only [insertColl, if_pos hk]; exact List.mem_cons_of_mem _ h2⟩
    · constructor
      · rintro ⟨bb, h⟩
        simp only [insertColl, if_neg hk] at h
        rcases List.mem_cons.1 h with h | h
        · exact Or.inr ⟨bb, h ▸ List.mem_cons_self _ _⟩
        · rcases (memKeyC_insertColl x b rest).1 ⟨bb, h⟩ with h2 | ⟨bb2, h2⟩
          · exact Or.inl h2
          · exact Or.inr ⟨bb2, List.mem_cons_of_mem _ h2⟩
      · rintro (h | ⟨bb, h⟩)
        · obtain ⟨bb2, h2⟩ := (memKeyC_insertColl x b rest).2 (Or.inl h)
          exact ⟨bb2, by simp only [insertColl, if_neg hk]; exact List.mem_cons_of_mem _ h2⟩
        · rcases List.mem_cons.1 h with h2 | h2
          · exact ⟨bb, by simp only [insertColl, if_neg hk]; exact h2 ▸ List.mem_cons_self _ _⟩
          · obtain ⟨bb2, h3⟩ := (memKeyC_insertColl x b rest).2 (Or.inr ⟨bb, h2⟩)
            exact ⟨bb2, by simp only [insertColl, if_neg hk]; exact List.mem_cons_of_mem _ h3⟩

/-- Keys of the colliding set accumulated by the narrowphase loop. -/
theorem npGo_keys (x : ℕ) : ∀ (ps : Table) (col : CollMap),
    memKeyC x (npGo ps col).1 ↔
      (∃ kp ∈ ps, 0 < (npManifold kp).length
        ∧ (x = kp.2.bodyA.bid ∨ x = kp.2.bodyB.bid)) ∨ memKeyC x col
  | [], col => by
    simp only [npGo]
    constructor
    · exact fun h => Or.inr h
    · rintro (⟨kp, h, _⟩ | h)
      · cases h
      · exact h
  | kp :: rest, col => by
    by_cases h : 0 < (npManifold kp).length
    · have e : (npGo (kp :: rest) col).1 =
          (npGo rest (insertColl kp.2.bodyB (insertColl kp.2.bodyA col))).1 := by
        simp only [npGo]
        rw [npPair_addQ kp, if_pos h]
      rw [e, npGo_keys x rest _]
      rw [memKeyC_insertColl, memKeyC_insertColl]
      constructor
      · rintro (⟨kp2, h1, h2⟩ | hB | hA | hc)
        · exact Or.inl ⟨kp2, List.mem_cons_of_mem _ h1, h2⟩
        · exact Or.inl ⟨kp, List.mem_cons_self _ _, h, Or.inr hB⟩
        · exact Or.inl ⟨kp, List.mem_cons_self _ _, h, Or.inl hA⟩
        · exact Or.inr hc
      · rintro (⟨kp2, h1, h2, h3⟩ | hc)
        · rcases List.mem_cons.1 h1 with h4 | h4
          · subst h4
            rcases h3 with h3 | h3
            · exact Or.inr (Or.inr (Or.inl h3))
            · exact Or.inr (Or.inl h3)
          · exact Or.inl ⟨kp2, h4, h2, h3⟩
        · exact Or.inr (Or.inr (Or.inr hc))
    · have e : (npGo (kp :: rest) col).1 = (npGo rest col).1 := by
        simp only [npGo]
        rw [npPair_addQ kp, if_neg h]
      rw [e, npGo_keys x rest col]
      constructor
      · rintro (⟨kp2, h1, h2⟩ | hc)
        · exact Or.inl ⟨kp2, List.mem_cons_of_mem _ h1, h2⟩
        · exact Or.inr hc
      · rintro (⟨kp2, h1, h2, h3⟩ | hc)
        · rcases List.mem_cons.1 h1 with h4 | h4
          · subst h4
            exact absurd h2 h
          · exact Or.inl ⟨kp2, h4, h2, h3⟩
        · exact Or.inr hc

/-- C4: a pair whose collision algorithm produces zero contact points
contributes neither body to the colliding set, yet its entry remains
in the overlap table with its persistent manifold untouched —
broadphase membership does not imply touching; when contact points do
exist, both bodies' ids enter the colliding set and the pair's
manifold is refreshed against the current world transforms and merged
with the new points in place. -/
theorem narrowphase_zero_contact (ps : Table) :
    ((narrowphase ps).2 = ps.map fun kp => (npPair kp).1)
  ∧ (∀ kp ∈ ps, (npPair kp).1 ∈ (narrowphase ps).2
      ∧ (npPair kp).1.1 = kp.1
      ∧ (npPair kp).1.2.manifold =
          (if 0 < (npManifold kp).length
           then mergeContacts
                  (refreshContacts kp.2.bodyA.world kp.2.bodyB.world
                    kp.2.manifold) (npManifold kp)
           else kp.2.manifold))
  ∧ (∀ x : ℕ, memKeyC x (narrowphase ps).1 ↔
      ∃ kp ∈ ps, 0 < (npManifold kp).length
        ∧ (x = kp.2.bodyA.bid ∨ x = kp.2.bodyB.bid)) := by
  refine ⟨npGo_snd ps [], ?_, ?_⟩
  · intro kp hkp
    refine ⟨?_, npPair_key kp, npPair_manifold kp⟩
    rw [show (narrowphase ps).2 = ps.map fun kp => (npPair kp).1 from npGo_snd ps []]
    exact List.mem_map_of_mem _ hkp
  · intro x
    have h := npGo_keys x ps []
    simp only [narrowphase]
    rw [h]
    constructor
    · rintro (h2 | ⟨bb, h2⟩)
      · exact h2
      · cases h2
    · exact fun h2 => Or.inl h2

/-- Witness for C4 at a concrete one-pair table of two overlapping
spheres. -/
theorem narrowphase_zero_contact_witness :
    (npPair (pairId bodyEx1 bodyEx2,
        { newContactPair bodyEx1 bodyEx2 with valid := true })).1
      ∈ (narrowphase [(pairId bodyEx1 bodyEx2,
          { newContactPair bodyEx1 bodyEx2 with valid := true })]).2 := by
  have h := (narrowphase_zero_contact
    [(pairId bodyEx1 bodyEx2,
      { newContactPair bodyEx1 bodyEx2 with valid := true })]).2.1
    (pairId bodyEx1 bodyEx2,
      { newContactPair bodyEx1 bodyEx2 with valid := true })
    (List.mem_cons_self _ _)
  exact h.1

/-- C1: one `Step` is exactly the pipeline predict, then broadphase on
the predicted bodies, then narrowphase on the resulting overlap table
(when non-empty), then the solver — invoked only when the colliding
set is non-empty, so that two steps differing only in their solver
agree whenever narrowphase finds no colliding bodies — then the commit
of final world transforms, and finally an unconditional clearing of
every body's accumulated forces, so no force carries over into the
next step. -/
theorem step_pipeline (sol sol2 : SolverFn) (m : ℚ) (px : physicsSt)
    (bodies : List body) (dt : ℚ) :
    (∀ b2 ∈ (StepG sol m px bodies dt).2,
      b2.forces = V3.zero ∧ b2.torque = V3.zero)
  ∧ ((narrowphase (broadphase m (predictBodyLocations px.gravity bodies dt)
        px.overlapped)).1 = [] →
      StepG sol m px bodies dt = StepG sol2 m px bodies dt)
  ∧ StepG sol m px bodies dt =
      (let bodies1 := predictBodyLocations px.gravity bodies dt
       let ov := broadphase m bodies1 px.overlapped
       let stage :=
         if 0 < ov.length then
           (let nr := narrowphase ov
            if 0 < nr.1.length then sol bodies1 nr.1 nr.2 dt
            else (bodies1, nr.2))
         else (bodies1, ov)
       ({ px with overlapped := stage.2 },
        clearForcesAll (updateBodyLocations stage.1 dt))) := by
  refine ⟨?_, ?_, rfl⟩
  · intro b2 hb2
    simp only [StepG, clearForcesAll] at hb2
    obtain ⟨c, hc, he⟩ := List.mem_map.1 hb2
    rw [← he]
    exact ⟨rfl, rfl⟩
  · intro h0
    simp [StepG, h0]

/-- Witness for C1: stepping a lone immovable body finds no collisions,
so the solver is irrelevant, and the forces come out cleared. -/
theorem step_pipeline_witness :
    (∀ b2 ∈ (StepG solveModel marginDefault newPhysics [bodyEx3] (1/60)).2,
      b2.forces = V3.zero ∧ b2.torque = V3.zero)
  ∧ StepG solveModel marginDefault newPhysics [bodyEx3] (1/60)
      = StepG (fun bs c t d => (bs, t)) marginDefault newPhysics
          [bodyEx3] (1/60) := by
  have h := step_pipeline solveModel (fun bs c t d => (bs, t))
    marginDefault newPhysics [bodyEx3] (1/60)
  exact ⟨h.1, h.2.1 rfl⟩

/-! ## Key-tracking lemmas for broadphase (C3). -/

/-- Bounded pair ids agree only on equal unordered bid pairs. -/
theorem pairId_eq_iff (x y a b : body) (hx : x.bid < 2 ^ 32)
    (hy : y.bid < 2 ^ 32) (ha : a.bid < 2 ^ 32) (hb : b.bid < 2 ^ 32)
    (h : pairId x y = pairId a b) :
    (x.bid = a.bid ∧ y.bid = b.bid) ∨ (x.bid = b.bid ∧ y.bid = a.bid) :=
  pairKey_inj x.bid y.bid a.bid b.bid hx hy ha hb h

/-- A broadphase check touches only its own pair's key. -/
theorem lookup_bpCheck_ne (m : ℚ) (a b : body) (ps : Table) (k : ℕ)
    (hk : pairId a b ≠ k) :
    lookupPair k (bpCheck m a b ps) = lookupPair k ps := by
  unfold bpCheck
  by_cases hmv : (a.movable || b.movable) = true
  · rw [if_pos hmv]
    cases hl : lookupPair (pairId a b) ps with
    | some p =>
      by_cases ho : (predictedAabb a m).Overlaps (predictedAabb b m) = true
      · rw [if_pos ho]
        exact lookupPair_setValid_ne _ _ _ (fun h => hk h.symm)
      · rw [if_neg ho]
        rw [lookupPair_erase_ne _ _ _ (fun h => hk h.symm)]
        exact lookupPair_setValid_ne _ _ _ (fun h => hk h.symm)
    | none =>
      by_cases ho : (worldAabb a).Overlaps (worldAabb b) = true
      · rw [if_pos ho]
        exact lookupPair_insert_ne _ _ _ _ (fun h => hk h.symm)
      · rw [if_neg ho]
  · rw [if_neg hmv]

/-- A broadphase row touches only keys paired with its first body. -/
theorem lookup_bpRow_ne (m : ℚ) (a : body) (k : ℕ) :
    ∀ (bs : List body) (ps : Table), (∀ c ∈ bs, pairId a c ≠ k) →
      lookupPair k (bpRow m a bs ps) = lookupPair k ps
  | [], ps, _ => rfl
  | c :: rest, ps, h => by
    rw [show bpRow m a (c :: rest) ps = bpRow m a rest (bpCheck m a c ps) from rfl]
    rw [lookup_bpRow_ne m a k rest _ fun d hd => h d (List.mem_cons_of_mem _ hd)]
    exact lookup_bpCheck_ne m a c ps k (h c (List.mem_cons_self _ _))

/-- A broadphase pass touches only keys of pairs drawn from its body
list. -/
theorem lookup_bpPass_ne (m : ℚ) (k : ℕ) :
    ∀ (bs : List body) (ps : Table),
      (∀ c ∈ bs, ∀ d ∈ bs, pairId c d ≠ k) →
      lookupPair k (bpPass m bs ps) = lookupPair k ps
  | [], ps, _ => rfl
  | c :: rest, ps, h => by
    rw [show bpPass m (c :: rest) ps = bpPass m rest (bpRow m c rest ps) from rfl]
    rw [lookup_bpPass_ne m k rest _ fun x hx y hy =>
      h x (List.mem_cons_of_mem _ hx) y (List.mem_cons_of_mem _ hy)]
    exact lookup_bpRow_ne m c k rest ps fun d hd =>
      h c (List.mem_cons_self _ _) d (List.mem_cons_of_mem _ hd)

/-- Visiting a present pair whose expanded predicted AABBs no longer
overlap removes it from the table. -/
theorem lookup_bpCheck_separated (m : ℚ) (a b : body) (ps : Table)
    (hmv : (a.movable || b.movable) = true)
    (hsep : (predictedAabb a m).Overlaps (predictedAabb b m) = false)
    (hlk : lookupPair (pairId a b) ps ≠ none) :
    lookupPair (pairId a b) (bpCheck m a b ps) = none := by
  obtain ⟨p, hp⟩ := Option.ne_none_iff_exists'.1 hlk
  unfold bpCheck
  rw [if_pos hmv, hp, if_neg (by rw [hsep]; exact Bool.false_ne_true)]
  exact lookupPair_erase_self _ _

/-- In a body list whose bids are unique, bounded and avoid `a`'s bid,
the row for `a` erases the pair of `a` and the listed body `b` once
their expanded predicted AABBs stopped overlapping. -/
theorem bpRow_kills (m : ℚ) (a b : body) (haL : a.bid < 2 ^ 32)
    (hbL : b.bid < 2 ^ 32) (hab : a.bid ≠ b.bid)
    (hmv : (a.movable || b.movable) = true)
    (hsep : (predictedAabb a m).Overlaps (predictedAabb b m) = false) :
    ∀ (bs : List body) (ps : Table), b ∈ bs →
      (∀ c ∈ bs, c.bid < 2 ^ 32) →
      (∀ c ∈ bs, c.bid ≠ a.bid) →
      (List.map body.bid bs).Nodup →
      lookupPair (pairId a b) ps ≠ none →
      lookupPair (pairId a b) (bpRow m a bs ps) = none
  | [], ps, hbIn, _, _, _, _ => absurd hbIn (List.not_mem_nil b)
  | c :: rest, ps, hbIn, hBB, hNa, hnd, hlk => by
    have hnd' : (List.map body.bid rest).Nodup :=
      (List.nodup_cons.1 (by simpa using hnd)).2
    have hcnotin : c.bid ∉ List.map body.bid rest :=
      (List.nodup_cons.1 (by simpa using hnd)).1
    rw [show bpRow m a (c :: rest) ps = bpRow m a rest (bpCheck m a c ps)
      from rfl]
    rcases List.mem_cons.1 hbIn with hbc | hbIn'
    · subst hbc
      have h1 : lookupPair (pairId a b) (bpCheck m a b ps) = none :=
        lookup_bpCheck_separated m a b ps hmv hsep hlk
      rw [lookup_bpRow_ne m a (pairId a b) rest _ ?_, h1]
      intro d hd heq
      have hdb : d.bid ≠ b.bid := by
        intro hh
        exact hcnotin (hh ▸ List.mem_map_of_mem body.bid hd)
      rcases pairId_eq_iff a d a b haL
        (hBB d (List.mem_cons_of_mem _ hd)) haL hbL heq with ⟨_, h2⟩ | ⟨h2, _⟩
      · exact hdb h2
      · exact hab h2
    · have hcb : c.bid ≠ b.bid := by
        intro hh
        exact hcnotin (hh ▸ List.mem_map_of_mem body.bid hbIn')
      have hne : pairId a c ≠ pairId a b := by
        intro heq
        rcases pairId_eq_iff a c a b haL
          (hBB c (List.mem_cons_self _ _)) haL hbL heq with ⟨_, h2⟩ | ⟨h2, _⟩
        · exact hcb h2
        · exact hab h2
      refine bpRow_kills m a b haL hbL hab hmv hsep rest (bpCheck m a c ps)
        hbIn' (fun d hd => hBB d (List.mem_cons_of_mem _ hd))
        (fun d hd => hNa d (List.mem_cons_of_mem _ hd)) hnd' ?_
      rw [lookup_bpCheck_ne m a c ps (pairId a b) hne]
      exact hlk

/-- A full pass over a unique-bid body list removes the pair of two
listed bodies whose expanded predicted AABBs no longer overlap. -/
theorem bpPass_kills (m : ℚ) (a b : body) (hab : a.bid ≠ b.bid)
    (hmv : (a.movable || b.movable) = true)
    (hsep : (predictedAabb a m).Overlaps (predictedAabb b m) = false) :
    ∀ (bs : List body) (ps : Table), a ∈ bs → b ∈ bs →
      (∀ c ∈ bs, c.bid < 2 ^ 32) →
      (List.map body.bid bs).Nodup →
      lookupPair (pairId a b) ps ≠ none →
      lookupPair (pairId a b) (bpPass m bs ps) = none
  | [], ps, haIn, _, _, _, _ => absurd haIn (List.not_mem_nil a)
  | c :: rest, ps, haIn, hbIn, hBB, hnd, hlk => by
    have haL : a.bid < 2 ^ 32 := hBB a haIn
    have hbL : b.bid < 2 ^ 32 := hBB b hbIn
    have hnd' : (List.map body.bid rest).Nodup :=
      (List.nodup_cons.1 (by simpa using hnd)).2
    have hcnotin : c.bid ∉ List.map body.bid rest :=
      (List.nodup_cons.1 (by simpa using hnd)).1
    have hBB' : ∀ d ∈ rest, d.bid < 2 ^ 32 :=
      fun d hd => hBB d (List.mem_cons_of_mem _ hd)
    rw [show bpPass m (c :: rest) ps = bpPass m rest (bpRow m c rest ps)
      from rfl]
    rcases List.mem_cons.1 haIn with hca | haIn'
    · subst hca
      have hbIn' : b ∈ rest := by
        rcases List.mem_cons.1 hbIn with hh | hh
        · exact absurd (congrArg body.bid hh).symm hab
        · exact hh
      have h1 : lookupPair (pairId a b) (bpRow m a rest ps) = none := by
        refine bpRow_kills m a b haL hbL hab hmv hsep rest ps hbIn' hBB' ?_
          hnd' hlk
        intro d hd hh
        exact hcnotin (hh ▸ List.mem_map_of_mem body.bid hd)
      rw [lookup_bpPass_ne m (pairId a b) rest _ ?_, h1]
      intro x hx y hy heq
      rcases pairId_eq_iff x y a b (hBB' x hx) (hBB' y hy) haL hbL heq with
        ⟨h2, _⟩ | ⟨_, h2⟩
      · exact hcnotin (h2 ▸ List.mem_map_of_mem body.bid hx)
      · exact hcnotin (h2 ▸ List.mem_map_of_mem body.bid hy)
    · rcases List.mem_cons.1 hbIn with hcb | hbIn'
      · subst hcb
        have hmv' : (b.movable || a.movable) = true := by
          rw [Bool.or_comm]
          exact hmv
        have hsep' : (predictedAabb b m).Overlaps (predictedAabb a m)
            = false := by
          rw [Overlaps_comm]
          exact hsep
        have h1 : lookupPair (pairId b a) (bpRow m b rest ps) = none := by
          refine bpRow_kills m b a hbL haL (fun hh => hab hh.symm) hmv' hsep'
            rest ps haIn' hBB' ?_ hnd' ?_
          · intro d hd hh
            exact hcnotin (hh ▸ List.mem_map_of_mem body.bid hd)
          · rw [pairId_comm b a]
            exact hlk
        rw [lookup_bpPass_ne m (pairId a b) rest _ ?_, ← pairId_comm b a, h1]
        intro x hx y hy heq
        rcases pairId_eq_iff x y a b (hBB' x hx) (hBB' y hy) haL hbL heq with
          ⟨_, h2⟩ | ⟨h2, _⟩
        · exact hcnotin (h2 ▸ List.mem_map_of_mem body.bid hy)
        · exact hcnotin (h2 ▸ List.mem_map_of_mem body.bid hx)
      · have hrow : lookupPair (pairId a b) (bpRow m c rest ps)
            = lookupPair (pairId a b) ps := by
          refine lookup_bpRow_ne m c (pairId a b) rest ps ?_
          intro d hd heq
          rcases pairId_eq_iff c d a b (hBB c (List.mem_cons_self _ _))
            (hBB' d hd) haL hbL heq with ⟨h2, _⟩ | ⟨h2, _⟩
          · exact hcnotin (h2 ▸ List.mem_map_of_mem body.bid haIn')
          · exact hcnotin (h2 ▸ List.mem_map_of_mem body.bid hbIn')
        exact bpPass_kills m a b hab hmv hsep rest (bpRow m c rest ps)
          haIn' hbIn' hBB' hnd' (by rw [hrow]; exact hlk)

/-! ## The well-keyed invariant of the overlap table (C3). -/

/-- One broadphase check preserves the well-kept invariant. -/
theorem goodPair_bpCheck (m : ℚ) (bodies : List body) (a b : body)
    (ps : Table) (haB : a ∈ bodies) (hbB : b ∈ bodies)
    (haL : a.bid < 2 ^ 32) (hbL : b.bid < 2 ^ 32)
    (h : ∀ kp ∈ ps, goodPair bodies kp) :
    ∀ kp ∈ bpCheck m a b ps, goodPair bodies kp := by
  have hSV : ∀ kp ∈ setValidPair (pairId a b) ps, goodPair bodies kp := by
    intro kp hkp
    obtain ⟨kp', hkp', hkeq, hrest⟩ := mem_setValidPair _ _ _ hkp
    obtain ⟨h1', h2', h3', h4'⟩ := h kp' hkp'
    rcases hrest with hpeq | ⟨hkpid, hpeq⟩
    · refine ⟨?_, ?_, ?_, ?_⟩
      · rw [hkeq, hpeq]
        exact h1'
      · rw [hpeq]
        exact h2'
      · rw [hpeq]
        exact h3'
      · intro hv
        rw [hpeq] at hv
        obtain ⟨a2, ha2, b2, hb2, hp2⟩ := h4' hv
        exact ⟨a2, ha2, b2, hb2, hkeq ▸ hp2⟩
    · refine ⟨?_, ?_, ?_, ?_⟩
      · rw [hpeq]
        exact hkeq.trans h1'
      · rw [hpeq]
        exact h2'
      · rw [hpeq]
        exact h3'
      · intro _
        exact ⟨a, haB, b, hbB, hkpid⟩
  intro kp hkp
  unfold bpCheck at hkp
  by_cases hmv : (a.movable || b.movable) = true
  · rw [if_pos hmv] at hkp
    cases hl : lookupPair (pairId a b) ps with
    | some p =>
      rw [hl] at hkp
      by_cases ho : (predictedAabb a m).Overlaps (predictedAabb b m) = true
      · rw [if_pos ho] at hkp
        exact hSV kp hkp
      · rw [if_neg ho] at hkp
        exact hSV kp (mem_erasePair _ _ _ hkp)
    | none =>
      rw [hl] at hkp
      by_cases ho : (worldAabb a).Overlaps (worldAabb b) = true
      · rw [if_pos ho] at hkp
        rcases mem_insertPair _ _ _ _ hkp with h1 | h1
        · rw [h1]
          exact ⟨rfl, haL, hbL, fun _ => ⟨a, haB, b, hbB, rfl⟩⟩
        · exact h kp h1
      · rw [if_neg ho] at hkp
        exact h kp hkp
  · rw [if_neg hmv] at hkp
    exact h kp hkp

/-- The inner broadphase loop preserves the well-kept invariant. -/
theorem goodPair_bpRow (m : ℚ) (bodies : List body) (a : body)
    (haB : a ∈ bodies) (haL : a.bid < 2 ^ 32)
    (hBB : ∀ c ∈ bodies, c.bid < 2 ^ 32) :
    ∀ (bs : List body) (ps : Table), (∀ c ∈ bs, c ∈ bodies) →
      (∀ kp ∈ ps, goodPair bodies kp) →
      ∀ kp ∈ bpRow m a bs ps, goodPair bodies kp
  | [], ps, _, h => h
  | c :: rest, ps, hsub, h =>
    goodPair_bpRow m bodies a haB haL hBB rest (bpCheck m a c ps)
      (fun d hd => hsub d (List.mem_cons_of_mem _ hd))
      (goodPair_bpCheck m bodies a c ps haB
        (hsub c (List.mem_cons_self _ _)) haL
        (hBB c (hsub c (List.mem_cons_self _ _))) h)

/-- The outer broadphase loop preserves the well-kept invariant. -/
theorem goodPair_bpPass (m : ℚ) (bodies : List body)
    (hBB : ∀ c ∈ bodies, c.bid < 2 ^ 32) :
    ∀ (bs : List body) (ps : Table), (∀ c ∈ bs, c ∈ bodies) →
      (∀ kp ∈ ps, goodPair bodies kp) →
      ∀ kp ∈ bpPass m bs ps, goodPair bodies kp
  | [], ps, _, h => h
  | c :: rest, ps, hsub, h =>
    goodPair_bpPass m bodies hBB rest (bpRow m c rest ps)
      (fun d hd => hsub d (List.mem_cons_of_mem _ hd))
      (goodPair_bpRow m bodies c (hsub c (List.mem_cons_self _ _))
        (hBB c (hsub c (List.mem_cons_self _ _))) hBB rest ps
        (fun d hd => hsub d (List.mem_cons_of_mem _ hd)) h)

/-- C3: after a full broadphase pass every surviving pair was marked
valid during that pass; under the table's well-keyed invariant, a pair
referencing a body absent from the supplied list cannot survive the
pass — so pairs of deleted bodies are purged and cannot reappear —
and a pair of two listed bodies whose margin-expanded predicted AABBs
no longer overlap is removed as well. -/
theorem broadphase_purges_stale (m : ℚ) (bodies : List body) (ps : Table) :
    (∀ kp ∈ broadphase m bodies ps, kp.2.valid = true)
  ∧ ((∀ kp ∈ ps, kp.1 = pairKey kp.2.bodyA.bid kp.2.bodyB.bid
        ∧ kp.2.bodyA.bid < 2 ^ 32 ∧ kp.2.bodyB.bid < 2 ^ 32) →
      (∀ c ∈ bodies, c.bid < 2 ^ 32) →
      ∀ x : ℕ, (∀ c ∈ bodies, c.bid ≠ x) →
        ∀ kp ∈ broadphase m bodies ps,
          kp.2.bodyA.bid ≠ x ∧ kp.2.bodyB.bid ≠ x)
  ∧ (∀ a b : body, (List.map body.bid bodies).Nodup →
      (∀ c ∈ bodies, c.bid < 2 ^ 32) →
      a ∈ bodies → b ∈ bodies → a.bid ≠ b.bid →
      (a.movable || b.movable) = true →
      lookupPair (pairId a b) ps ≠ none →
      (predictedAabb a m).Overlaps (predictedAabb b m) = false →
      lookupPair (pairId a b) (broadphase m bodies ps) = none) := by
  refine ⟨?_, ?_, ?_⟩
  · intro kp hkp
    exact (mem_purgeInvalid _ _ hkp).2
  · intro hWK hBB x hxn kp hkp
    have hmem := mem_purgeInvalid _ _ hkp
    have h0 : ∀ kp ∈ markInvalid ps, goodPair bodies kp := by
      intro kp hkp
      obtain ⟨kp', hkp', hkeq, hpeq⟩ := mem_markInvalid _ _ hkp
      obtain ⟨h1', h2', h3'⟩ := hWK kp' hkp'
      refine ⟨?_, ?_, ?_, ?_⟩
      · rw [hkeq, hpeq]
        exact h1'
      · rw [hpeq]
        exact h2'
      · rw [hpeq]
        exact h3'
      · intro hv
        rw [hpeq] at hv
        simp at hv
    have hg := goodPair_bpPass m bodies hBB bodies (markInvalid ps)
      (fun c hc => hc) h0 kp hmem.1
    obtain ⟨hkey, hAL, hBL, hval⟩ := hg
    obtain ⟨a2, ha2, b2, hb2, hpid⟩ := hval hmem.2
    have heq : pairKey kp.2.bodyA.bid kp.2.bodyB.bid
        = pairKey a2.bid b2.bid := by
      rw [← hkey]
      exact hpid
    have hxa := hxn a2 ha2
    have hxb := hxn b2 hb2
    rcases pairKey_inj _ _ _ _ hAL hBL (hBB a2 ha2) (hBB b2 hb2) heq with
      ⟨h1, h2⟩ | ⟨h1, h2⟩ <;> constructor <;> omega
  · intro a b hnd hBB haIn hbIn hab hmv hlk hsep
    unfold broadphase
    apply lookupPair_purge_none
    refine bpPass_kills m a b hab hmv hsep bodies (markInvalid ps)
      haIn hbIn hBB hnd ?_
    rw [lookupPair_markInvalid]
    intro hcon
    exact hlk (Option.map_eq_none'.1 hcon)

/-- Witness for C3: the stored sphere pair, whose predicted AABBs have
separated, is purged by the next broadphase pass. -/
theorem broadphase_purges_stale_witness :
    lookupPair (pairId bodyEx1 bodyEx2far)
      (broadphase marginDefault [bodyEx1, bodyEx2far] psEx) = none :=
  (broadphase_purges_stale marginDefault [bodyEx1, bodyEx2far] psEx).2.2
    bodyEx1 bodyEx2far (by decide) (by decide)
    (List.mem_cons_self _ _)
    (List.mem_cons_of_mem _ (List.mem_cons_self _ _))
    (by decide) (by decide) (by decide)
    (by norm_num [predictedAabb, aabbAt, Abox.Overlaps, shapeExtent,
      bodyEx1, bodyEx2, bodyEx2far, marginDefault])

end VuPhysics
